import Mathlib

/-!
Shallow embedding of the financial calculation engine of the
real-estate-irr-calculator repository (source: src/utils/storage.ts,
calculation section, together with the data model of src/types/index.ts).

Modelling conventions:
* JavaScript IEEE doubles are modelled as exact rationals; numeric
  literals of the source are carried over verbatim as rational literals.
* Period indices and iteration counters are natural numbers; the data
  model declares periods and holding periods as positive integers
  (validated upstream by validateNumber with minimum 1).
* The source functions calculateNPV / calculateNPVDerivative throw on an
  empty series; inside calculateIRR they are only reached on series of
  length at least 2, so the loop is modelled with the total functions.
  The null-argument guard of projectToCashFlowArray cannot fire in a
  typed setting and is dropped; its inputs are plain structures.
* The JavaScript Map is modelled as an association list with
  first-match lookup and update-in-place / append-on-miss insertion,
  which reproduces insertion-order semantics; Math.max over an empty
  key set yields -Infinity in the source, making the materialization
  loop run zero times, which the model reproduces with an empty range.
-/

/-- Severity levels of the ErrorState record of src/types/index.ts. -/
inductive Severity where
  | error
  | warning
  | info
deriving DecidableEq, Repr

/-- ErrorState of src/types/index.ts (the optional field component is
omitted; the calculation engine never sets it). -/
structure ErrorState where
  type : String
  message : String
  severity : Severity
deriving DecidableEq, Repr

/-- IRRResult of src/utils/storage.ts. -/
structure IRRResult where
  irr : Option ℚ
  npv : Option ℚ
  error : Option ErrorState
deriving DecidableEq, Repr

/-- Period type of a cash flow entry (monthly or annual). -/
inductive PeriodType where
  | monthly
  | annual
deriving DecidableEq, Repr

/-- Holding period unit of sale proceeds (months or years). -/
inductive HoldingPeriodType where
  | months
  | years
deriving DecidableEq, Repr

/-- CashFlow of src/types/index.ts; only the fields read by the engine
(period, periodType, netCashFlow) are kept, the four monetary
components feeding the derived netCashFlow are not consulted by it. -/
structure CashFlow where
  period : ℕ
  periodType : PeriodType
  netCashFlow : ℚ
deriving DecidableEq, Repr

/-- InitialInvestment of src/types/index.ts; the engine only reads the
derived total. -/
structure InitialInvestment where
  total : ℚ
deriving DecidableEq, Repr

/-- SaleProceeds of src/types/index.ts; the engine reads netProceeds,
holdingPeriod and holdingPeriodType. -/
structure SaleProceeds where
  netProceeds : ℚ
  holdingPeriod : ℕ
  holdingPeriodType : HoldingPeriodType
deriving DecidableEq, Repr

/-- Project of src/types/index.ts, restricted to the three sub-records
consumed by calculateProjectIRR. -/
structure Project where
  initialInvestment : InitialInvestment
  cashFlows : List CashFlow
  saleProceeds : SaleProceeds
deriving DecidableEq, Repr

/-- calculateNPV of src/utils/storage.ts: reduce over the series adding
cashFlow / (1+rate)^index. The source throws on an empty array; the
model is the total function, used by the solver only on series of
length at least 2. -/
def calculateNPV (cashFlows : List ℚ) (rate : ℚ) : ℚ :=
  cashFlows.enum.foldl (fun npv p => npv + p.2 / (1 + rate) ^ p.1) 0

/-- calculateNPVDerivative of src/utils/storage.ts: reduce over the
series; the index-0 term is skipped, every later index contributes
-(index * cashFlow) / (1+rate)^(index+1). -/
def calculateNPVDerivative (cashFlows : List ℚ) (rate : ℚ) : ℚ :=
  cashFlows.enum.foldl
    (fun derivative p =>
      if p.1 = 0 then derivative
      else derivative - ((p.1 : ℚ) * p.2) / (1 + rate) ^ (p.1 + 1)) 0

/-- One pass of the do-while body of calculateIRR, in source order:
evaluate npv and derivative at the current rate; abandon the seed
(Sum.inl none) on a flat derivative; compute nextRate; on convergence
|nextRate - rate| < precision return (Sum.inl some) the pair of
nextRate and the npv re-evaluated at nextRate; then abandon the seed
when nextRate leaves (-1, 100); otherwise continue (Sum.inr) with
nextRate. -/
def newtonBody (cashFlows : List ℚ) (precision rate : ℚ) : Option (ℚ × ℚ) ⊕ ℚ :=
  let npv := calculateNPV cashFlows rate
  let derivative := calculateNPVDerivative cashFlows rate
  if |derivative| < precision then Sum.inl none
  else
    let nextRate := rate - npv / derivative
    if |nextRate - rate| < precision then
      Sum.inl (some (nextRate, calculateNPV cashFlows nextRate))
    else if nextRate < -1 ∨ nextRate > 100 then Sum.inl none
    else Sum.inr nextRate

/-- Inner do-while loop of calculateIRR for one seed guess. The fuel
argument counts the loop-continuation tests still allowed: the source
uses do/while (iteration < maxIterations) with iteration starting at 0
and incremented each pass, so a call with fuel = maxIterations - 1
performs at most maxIterations body executions and always at least one.
Returns some (irr, npv) on convergence, none when the seed is abandoned
(flat derivative, divergence out of (-1, 100), or fuel exhausted). -/
def newtonIterate (cashFlows : List ℚ) (precision : ℚ) : ℚ → ℕ → Option (ℚ × ℚ)
  | rate, 0 =>
    match newtonBody cashFlows precision rate with
    | Sum.inl r => r
    | Sum.inr _ => none
  | rate, fuel + 1 =>
    match newtonBody cashFlows precision rate with
    | Sum.inl r => r
    | Sum.inr nextRate => newtonIterate cashFlows precision nextRate fuel

/-- Outer seed loop of calculateIRR: try each guess in order, the first
converging seed wins. -/
def tryGuesses (cashFlows : List ℚ) (maxIterations : ℕ) (precision : ℚ) :
    List ℚ → Option IRRResult
  | [] => none
  | guess :: rest =>
    match newtonIterate cashFlows precision guess (maxIterations - 1) with
    | some r => some { irr := some r.1, npv := some r.2, error := none }
    | none => tryGuesses cashFlows maxIterations precision rest

/-- calculateIRR of src/utils/storage.ts. Source defaults are
initialGuess = 0.1, maxIterations = 100, precision = 0.0000001; the
model takes them as explicit arguments. The hasPositive, hasNegative
and guesses let-bindings of the source are inlined. The try/catch
around the inner loop only guards the empty-series throw of
calculateNPV, unreachable once the length check has passed. -/
def calculateIRR (cashFlows : List ℚ) (initialGuess : ℚ)
    (maxIterations : ℕ) (precision : ℚ) : IRRResult :=
  if cashFlows.length < 2 then
    { irr := none, npv := none,
      error := some ⟨"calculation",
        "Insufficient data for IRR calculation. Need at least initial investment and one cash flow.",
        Severity.error⟩ }
  else
    if ¬ cashFlows.any (fun cf => cf > 0) ∨ ¬ cashFlows.any (fun cf => cf < 0) then
      { irr := none, npv := none,
        error := some ⟨"calculation",
          "IRR calculation requires both positive and negative cash flows.",
          Severity.error⟩ }
    else
      match tryGuesses cashFlows maxIterations precision
        [initialGuess, 0.01, 0.05, 0.1, 0.15, 0.2, 0.25, 0.3, 0.5, 0.75, 1.0] with
      | some r => r
      | none =>
        { irr := none, npv := none,
          error := some ⟨"calculation",
            "IRR calculation failed to converge with any initial guess.",
            Severity.error⟩ }

/-- Math.sign on rationals: 1 for positive, -1 for negative, 0 for zero. -/
def signQ (x : ℚ) : Int :=
  if 0 < x then 1 else if x < 0 then -1 else 0

/-- Loop body of mightHaveMultipleIRRSolutions: state is the pair
(signChanges, previousSign). -/
def signStep (st : ℕ × Int) (x : ℚ) : ℕ × Int :=
  let currentSign := signQ x
  let changes :=
    if currentSign ≠ 0 ∧ st.2 ≠ 0 ∧ currentSign ≠ st.2 then st.1 + 1 else st.1
  let prev := if currentSign ≠ 0 then currentSign else st.2
  (changes, prev)

/-- mightHaveMultipleIRRSolutions of src/utils/storage.ts: returns
false on series shorter than 3, otherwise counts sign transitions
(zeros neither count nor update the tracked previous sign) starting
from previousSign = Math.sign of entry 0, and returns signChanges > 1. -/
def mightHaveMultipleIRRSolutions (cashFlows : List ℚ) : Bool :=
  if cashFlows.length < 3 then false
  else
    let res := cashFlows.tail.foldl signStep (0, signQ (cashFlows.headD 0))
    res.1 > 1

/-- Lookup in the JavaScript Map model: value of the first entry with
the given key. -/
def mapGet (m : List (ℕ × ℚ)) (k : ℕ) : Option ℚ :=
  (m.find? (fun p => p.1 = k)).map Prod.snd

/-- Map.set model: update every entry holding the key in place (keys
are kept unique, so at most one exists), or append a fresh entry. -/
def mapSet (m : List (ℕ × ℚ)) (k : ℕ) (v : ℚ) : List (ℕ × ℚ) :=
  if m.any (fun p => p.1 = k) then
    m.map (fun p => if p.1 = k then (k, v) else p)
  else
    m ++ [(k, v)]

/-- Processing of one cash-flow entry by the forEach of
projectToCashFlowArray: spread annual entries over 12 months when the
target unit is monthly, aggregate monthly entries into the year
ceil(period/12) when the target unit is annual, otherwise accumulate
under the entry's own period. The JavaScript get(k) || 0 defaulting is
mapGet followed by getD 0. -/
def groupStep (isMonthly : Bool) (m : List (ℕ × ℚ)) (cf : CashFlow) :
    List (ℕ × ℚ) :=
  if isMonthly ∧ cf.periodType = PeriodType.annual then
    (List.range 12).foldl
      (fun m i =>
        let monthPeriod := (cf.period - 1) * 12 + i + 1
        mapSet m monthPeriod ((mapGet m monthPeriod).getD 0 + cf.netCashFlow / 12))
      m
  else if ¬ isMonthly ∧ cf.periodType = PeriodType.monthly then
    let period := (cf.period + 11) / 12
    mapSet m period ((mapGet m period).getD 0 + cf.netCashFlow)
  else
    mapSet m cf.period ((mapGet m cf.period).getD 0 + cf.netCashFlow)

/-- projectToCashFlowArray of src/utils/storage.ts. Math.ceil(n/12) on
positive integers is (n + 11) / 12 in natural division; the while loop
padding the array up to the holding period is a replicate of zeros; the
final += on the holding-period slot is a set of the incremented value. -/
def projectToCashFlowArray (initialInvestment : InitialInvestment)
    (cashFlows : List CashFlow) (saleProceeds : SaleProceeds) : List ℚ :=
  let result0 : List ℚ := [-initialInvestment.total]
  let isMonthly := cashFlows.any (fun cf => cf.periodType = PeriodType.monthly)
  let standardizedCashFlows := cashFlows.mergeSort (fun a b => a.period ≤ b.period)
  let groupedCashFlows := standardizedCashFlows.foldl (groupStep isMonthly) []
  let maxPeriod := (groupedCashFlows.map Prod.fst).foldl max 0
  let result1 := result0 ++ (List.range' 1 maxPeriod).map
    (fun i => (mapGet groupedCashFlows i).getD 0)
  let holdingPeriod :=
    if saleProceeds.holdingPeriodType = HoldingPeriodType.months ∧ ¬ isMonthly then
      (saleProceeds.holdingPeriod + 11) / 12
    else if saleProceeds.holdingPeriodType = HoldingPeriodType.years ∧ isMonthly then
      saleProceeds.holdingPeriod * 12
    else
      saleProceeds.holdingPeriod
  let result2 := result1 ++ List.replicate (holdingPeriod + 1 - result1.length) 0
  result2.set holdingPeriod (result2.getD holdingPeriod 0 + saleProceeds.netProceeds)

/-- Number of adjacent sign transitions in a list of signs (spec-side
notion used by the multiplicity claim): each pair of consecutive
unequal entries counts one transition. -/
def countChanges : List Int → ℕ
  | a :: b :: t => (if a ≠ b then 1 else 0) + countChanges (b :: t)
  | _ => 0

/-- Transition count of a cash-flow series as the spec describes it:
zero entries neither count as a sign nor update the tracked previous
sign, so they are filtered out before counting adjacent transitions
between a positive and a negative sign. -/
def signChanges (cashFlows : List ℚ) : ℕ :=
  countChanges ((cashFlows.filter (fun x => x ≠ 0)).map signQ)

/-- Transition counter carrying the tracked previous sign (0 when no
nonzero entry has been seen yet); proof-side bridge between the foldl
of the source loop and countChanges. -/
def ccFrom : Int → List Int → ℕ
  | _, [] => 0
  | p, s :: t => (if p ≠ 0 ∧ s ≠ p then 1 else 0) + ccFrom s t

/-- calculateProjectIRR of src/utils/storage.ts, called with the source
defaults of calculateIRR. The surrounding try/catch only converts the
null-argument throw of projectToCashFlowArray, which a typed call
cannot produce. -/
def calculateProjectIRR (project : Project) : IRRResult :=
  let cashFlows := projectToCashFlowArray project.initialInvestment
    project.cashFlows project.saleProceeds
  if mightHaveMultipleIRRSolutions cashFlows then
    let result := calculateIRR cashFlows 0.1 100 0.0000001
    if result.irr ≠ none then
      { result with
        error := some ⟨"calculation",
          "Multiple IRR solutions may exist. The calculated value may not be the only solution.",
          Severity.warning⟩ }
    else result
  else
    calculateIRR cashFlows 0.1 100 0.0000001

/-! Helper lemmas about the Newton-Raphson loop. -/

theorem newtonIterate_zero (cashFlows : List ℚ) (precision rate : ℚ) :
    newtonIterate cashFlows precision rate 0 =
      match newtonBody cashFlows precision rate with
      | Sum.inl r => r
      | Sum.inr _ => none := rfl

theorem newtonIterate_succ (cashFlows : List ℚ) (precision rate : ℚ) (fuel : ℕ) :
    newtonIterate cashFlows precision rate (fuel + 1) =
      match newtonBody cashFlows precision rate with
      | Sum.inl r => r
      | Sum.inr nextRate => newtonIterate cashFlows precision nextRate fuel := rfl

theorem newtonIterate_of_inl (cashFlows : List ℚ) (precision rate : ℚ)
    (r : Option (ℚ × ℚ)) (h : newtonBody cashFlows precision rate = Sum.inl r)
    (fuel : ℕ) : newtonIterate cashFlows precision rate fuel = r := by
  cases fuel with
  | zero => rw [newtonIterate_zero, h]
  | succ f => rw [newtonIterate_succ, h]

theorem newtonIterate_of_inr (cashFlows : List ℚ) (precision rate nextRate : ℚ)
    (h : newtonBody cashFlows precision rate = Sum.inr nextRate) (fuel : ℕ) :
    newtonIterate cashFlows precision rate (fuel + 1) =
      newtonIterate cashFlows precision nextRate fuel := by
  rw [newtonIterate_succ, h]

/-- Claim C3: whenever a Newton-Raphson step produces nextRate with
|nextRate - rate| < precision (and the derivative guard did not fire),
the loop returns immediately with irr = nextRate and npv freshly
re-evaluated at nextRate, regardless of remaining fuel and regardless
of whether nextRate lies outside (-1, 100): the convergence check comes
before the divergence bound check. -/
theorem newton_convergence_returns_immediately (cashFlows : List ℚ)
    (precision rate : ℚ) (fuel : ℕ)
    (hd : ¬ |calculateNPVDerivative cashFlows rate| < precision)
    (hc : |rate - calculateNPV cashFlows rate / calculateNPVDerivative cashFlows rate - rate|
      < precision) :
    newtonIterate cashFlows precision rate fuel =
      some (rate - calculateNPV cashFlows rate / calculateNPVDerivative cashFlows rate,
        calculateNPV cashFlows
          (rate - calculateNPV cashFlows rate / calculateNPVDerivative cashFlows rate)) := by
  apply newtonIterate_of_inl
  unfold newtonBody
  rw [if_neg hd, if_pos hc]

/-- Witness for the convergence-first theorem at a concrete input whose
converged rate 200 lies far outside the divergence bounds, showing the
convergence check indeed precedes the bound check. -/
theorem newton_convergence_returns_immediately_witness :
    ¬ |calculateNPVDerivative [-1/201, 1] 200| < 0.0000001 ∧
    |(200 : ℚ) - calculateNPV [-1/201, 1] 200 / calculateNPVDerivative [-1/201, 1] 200 - 200|
      < 0.0000001 ∧
    newtonIterate [-1/201, 1] 0.0000001 200 0 =
      some (200 - calculateNPV [-1/201, 1] 200 / calculateNPVDerivative [-1/201, 1] 200,
        calculateNPV [-1/201, 1]
          (200 - calculateNPV [-1/201, 1] 200 / calculateNPVDerivative [-1/201, 1] 200)) := by
  have hd : ¬ |calculateNPVDerivative [-1/201, 1] 200| < (0.0000001 : ℚ) := by
    norm_num [calculateNPVDerivative, List.enum, List.enumFrom, abs_lt]
  have hc : |(200 : ℚ) - calculateNPV [-1/201, 1] 200 / calculateNPVDerivative [-1/201, 1] 200
      - 200| < (0.0000001 : ℚ) := by
    norm_num [calculateNPV, calculateNPVDerivative, List.enum, List.enumFrom, abs_lt]
  exact ⟨hd, hc, newton_convergence_returns_immediately [-1/201, 1] 0.0000001 200 0 hd hc⟩

/-- Claim C5: scenario D, initial investment total 100000, annual cash
flows 3000 in period 1 and 3500 in period 2, sale net proceeds 123000
at holding period 2 years, yields exactly [-100000, 3000, 126500]. -/
theorem scenario_d_series :
    projectToCashFlowArray ⟨100000⟩
      [⟨1, PeriodType.annual, 3000⟩, ⟨2, PeriodType.annual, 3500⟩]
      ⟨123000, 2, HoldingPeriodType.years⟩ = [-100000, 3000, 126500] := by
  norm_num [projectToCashFlowArray, groupStep, mapSet, mapGet, List.mergeSort, List.range',
    List.find?, List.any, List.replicate, List.set, List.getD, List.get?]

/-- Claim C2 as stated is false: the NPV of [-1000, 300, 400, 500] at
rate 0.1 does equal the stated formula, but that value is -28000/1331,
about -21.04, which is not within 0.01 of -118.64. -/
theorem scenario_a_npv_counterexample :
    ¬ (calculateNPV [-1000, 300, 400, 500] 0.1
        = -1000 + 300/1.1 + 400/1.21 + 500/1.331 ∧
      |calculateNPV [-1000, 300, 400, 500] 0.1 - (-118.64)| ≤ 0.01) := by
  rintro ⟨-, h⟩
  rw [show calculateNPV [-1000, 300, 400, 500] 0.1 = -28000/1331 from by
    norm_num [calculateNPV, List.enum, List.enumFrom]] at h
  rw [abs_of_nonneg (by norm_num)] at h
  norm_num at h

/-- Claim C2 amended: calculateNPV on [-1000, 300, 400, 500] at rate
0.1 returns -1000 + 300/1.1 + 400/1.21 + 500/1.331, and that value
(-28000/1331) is within 0.01 of -21.04 (not of -118.64). -/
theorem scenario_a_npv_value :
    calculateNPV [-1000, 300, 400, 500] 0.1
        = -1000 + 300/1.1 + 400/1.21 + 500/1.331 ∧
      |calculateNPV [-1000, 300, 400, 500] 0.1 - (-21.04)| ≤ 0.01 := by
  constructor
  · norm_num [calculateNPV, List.enum, List.enumFrom]
  · rw [show calculateNPV [-1000, 300, 400, 500] 0.1 = -28000/1331 from by
      norm_num [calculateNPV, List.enum, List.enumFrom]]
    rw [abs_of_nonneg (by norm_num)]
    norm_num

theorem tryGuesses_nil (cashFlows : List ℚ) (maxIterations : ℕ) (precision : ℚ) :
    tryGuesses cashFlows maxIterations precision [] = none := rfl

theorem tryGuesses_cons (cashFlows : List ℚ) (maxIterations : ℕ) (precision : ℚ)
    (guess : ℚ) (rest : List ℚ) :
    tryGuesses cashFlows maxIterations precision (guess :: rest) =
      match newtonIterate cashFlows precision guess (maxIterations - 1) with
      | some r => some { irr := some r.1, npv := some r.2, error := none }
      | none => tryGuesses cashFlows maxIterations precision rest := rfl

/-- Claim C4: a series of fewer than 2 entries makes calculateIRR
return the insufficient-data error value (that check coming first, for
any sign pattern), and a series of length at least 2 lacking a strictly
positive or a strictly negative entry makes it return the
invalid-sign error value; both are ordinary return values with
irr = npv = null and an error-severity diagnostic, and neither depends
on the guess, iteration or precision arguments since no Newton-Raphson
computation is attempted. -/
theorem calculateIRR_guard_errors (cashFlows : List ℚ) (initialGuess : ℚ)
    (maxIterations : ℕ) (precision : ℚ) :
    (cashFlows.length < 2 →
      calculateIRR cashFlows initialGuess maxIterations precision =
        { irr := none, npv := none,
          error := some ⟨"calculation",
            "Insufficient data for IRR calculation. Need at least initial investment and one cash flow.",
            Severity.error⟩ }) ∧
    (2 ≤ cashFlows.length →
      (¬ cashFlows.any (fun cf => cf > 0) = true ∨ ¬ cashFlows.any (fun cf => cf < 0) = true) →
      calculateIRR cashFlows initialGuess maxIterations precision =
        { irr := none, npv := none,
          error := some ⟨"calculation",
            "IRR calculation requires both positive and negative cash flows.",
            Severity.error⟩ }) := by
  constructor
  · intro h
    unfold calculateIRR
    rw [if_pos h]
  · intro h2 hsign
    unfold calculateIRR
    rw [if_neg (by omega), if_pos hsign]

/-- Witness for the guard theorem: a one-entry series yields the
insufficient-data value, and an all-positive two-entry series yields
the invalid-sign value. -/
theorem calculateIRR_guard_errors_witness :
    calculateIRR [5] 0.1 100 0.0000001 =
      { irr := none, npv := none,
        error := some ⟨"calculation",
          "Insufficient data for IRR calculation. Need at least initial investment and one cash flow.",
          Severity.error⟩ } ∧
    calculateIRR [1, 2] 0.1 100 0.0000001 =
      { irr := none, npv := none,
        error := some ⟨"calculation",
          "IRR calculation requires both positive and negative cash flows.",
          Severity.error⟩ } := by
  constructor
  · exact (calculateIRR_guard_errors [5] 0.1 100 0.0000001).1 (by norm_num)
  · exact (calculateIRR_guard_errors [1, 2] 0.1 100 0.0000001).2 (by norm_num)
      (Or.inr (by norm_num [List.any_cons, List.any_nil]))

/-- Claim C1 as stated is false: on this two-entry series the default
solver converges at the very first Newton step (the step from 0.1 has
size 9/10^8, below the precision 1/10^7), but the NPV evaluated at the
returned rate is 81000000/110000009, about 0.736, far above the
precision. -/
theorem converged_npv_residual_counterexample :
    (calculateIRR [-109999991000000, 121000000000000] 0.1 100 0.0000001).irr
        = some (10000009/100000000) ∧
    ¬ |calculateNPV [-109999991000000, 121000000000000] (10000009/100000000)|
        < 0.0000001 := by
  have hb : newtonBody [-109999991000000, 121000000000000] 0.0000001 0.1 =
      Sum.inl (some (10000009/100000000, 81000000/110000009)) := by
    norm_num [newtonBody, calculateNPV, calculateNPVDerivative, List.enum, List.enumFrom,
      abs_lt]
  constructor
  · unfold calculateIRR
    rw [if_neg (by norm_num), if_neg (by
      norm_num [List.any_cons, List.any_nil]), tryGuesses_cons,
      newtonIterate_of_inl _ _ _ _ hb]
  · rw [show calculateNPV [-109999991000000, 121000000000000] (10000009/100000000)
        = 81000000/110000009 from by
      norm_num [calculateNPV, List.enum, List.enumFrom]]
    rw [abs_of_nonneg (by norm_num)]
    norm_num

theorem newtonBody_inl_some (cashFlows : List ℚ) (precision rate r v : ℚ)
    (h : newtonBody cashFlows precision rate = Sum.inl (some (r, v))) :
    v = calculateNPV cashFlows r ∧
    ¬ |calculateNPVDerivative cashFlows rate| < precision ∧
    r = rate - calculateNPV cashFlows rate / calculateNPVDerivative cashFlows rate ∧
    |r - rate| < precision := by
  unfold newtonBody at h
  by_cases h1 : |calculateNPVDerivative cashFlows rate| < precision
  · rw [if_pos h1] at h
    simp at h
  · rw [if_neg h1] at h
    by_cases h2 : |rate - calculateNPV cashFlows rate / calculateNPVDerivative cashFlows rate
        - rate| < precision
    · rw [if_pos h2] at h
      simp only [Sum.inl.injEq, Option.some.injEq, Prod.mk.injEq] at h
      obtain ⟨hr, hv⟩ := h
      subst hr
      exact ⟨hv.symm, h1, rfl, h2⟩
    · rw [if_neg h2] at h
      by_cases h3 : rate - calculateNPV cashFlows rate / calculateNPVDerivative cashFlows rate
          < -1 ∨ rate - calculateNPV cashFlows rate / calculateNPVDerivative cashFlows rate > 100
      · rw [if_pos h3] at h
        simp at h
      · rw [if_neg h3] at h
        simp at h

theorem newtonIterate_some_inv (cashFlows : List ℚ) (precision : ℚ) :
    ∀ (fuel : ℕ) (rate r v : ℚ),
      newtonIterate cashFlows precision rate fuel = some (r, v) →
      v = calculateNPV cashFlows r ∧
      ∃ prev, ¬ |calculateNPVDerivative cashFlows prev| < precision ∧
        r = prev - calculateNPV cashFlows prev / calculateNPVDerivative cashFlows prev ∧
        |r - prev| < precision := by
  intro fuel
  induction fuel with
  | zero =>
    intro rate r v h
    rw [newtonIterate_zero] at h
    cases hb : newtonBody cashFlows precision rate with
    | inl res =>
      rw [hb] at h
      simp only at h
      subst h
      obtain ⟨hv, h1, hr, h2⟩ := newtonBody_inl_some cashFlows precision rate r v hb
      exact ⟨hv, rate, h1, hr, h2⟩
    | inr nr =>
      rw [hb] at h
      simp at h
  | succ f ih =>
    intro rate r v h
    rw [newtonIterate_succ] at h
    cases hb : newtonBody cashFlows precision rate with
    | inl res =>
      rw [hb] at h
      simp only at h
      subst h
      obtain ⟨hv, h1, hr, h2⟩ := newtonBody_inl_some cashFlows precision rate r v hb
      exact ⟨hv, rate, h1, hr, h2⟩
    | inr nr =>
      rw [hb] at h
      simp only at h
      exact ih nr r v h

theorem tryGuesses_some_inv (cashFlows : List ℚ) (maxIterations : ℕ) (precision : ℚ) :
    ∀ (gs : List ℚ) (res : IRRResult),
      tryGuesses cashFlows maxIterations precision gs = some res →
      ∃ a b, res = { irr := some a, npv := some b, error := none } ∧
        ∃ fuel rate, newtonIterate cashFlows precision rate fuel = some (a, b) := by
  intro gs
  induction gs with
  | nil =>
    intro res h
    rw [tryGuesses_nil] at h
    simp at h
  | cons g rest ih =>
    intro res h
    rw [tryGuesses_cons] at h
    cases hn : newtonIterate cashFlows precision g (maxIterations - 1) with
    | some rv =>
      rw [hn] at h
      simp only [Option.some.injEq] at h
      refine ⟨rv.1, rv.2, h.symm, maxIterations - 1, g, ?_⟩
      rw [hn]
    | none =>
      rw [hn] at h
      simp only at h
      exact ih res h

theorem calculateIRR_some_inv (cashFlows : List ℚ) (initialGuess : ℚ)
    (maxIterations : ℕ) (precision : ℚ) (r : ℚ)
    (h : (calculateIRR cashFlows initialGuess maxIterations precision).irr = some r) :
    ∃ v, calculateIRR cashFlows initialGuess maxIterations precision
        = { irr := some r, npv := some v, error := none } ∧
      ∃ fuel rate, newtonIterate cashFlows precision rate fuel = some (r, v) := by
  by_cases hlen : cashFlows.length < 2
  · rw [show calculateIRR cashFlows initialGuess maxIterations precision =
        { irr := none, npv := none,
          error := some ⟨"calculation",
            "Insufficient data for IRR calculation. Need at least initial investment and one cash flow.",
            Severity.error⟩ } from by unfold calculateIRR; rw [if_pos hlen]] at h
    simp at h
  · by_cases hsign : ¬ cashFlows.any (fun cf => cf > 0) = true
        ∨ ¬ cashFlows.any (fun cf => cf < 0) = true
    · rw [show calculateIRR cashFlows initialGuess maxIterations precision =
          { irr := none, npv := none,
            error := some ⟨"calculation",
              "IRR calculation requires both positive and negative cash flows.",
              Severity.error⟩ } from by unfold calculateIRR; rw [if_neg hlen, if_pos hsign]] at h
      simp at h
    · have hirr : calculateIRR cashFlows initialGuess maxIterations precision =
          match tryGuesses cashFlows maxIterations precision
            [initialGuess, 0.01, 0.05, 0.1, 0.15, 0.2, 0.25, 0.3, 0.5, 0.75, 1.0] with
          | some r => r
          | none =>
            { irr := none, npv := none,
              error := some ⟨"calculation",
                "IRR calculation failed to converge with any initial guess.",
                Severity.error⟩ } := by
        unfold calculateIRR
        rw [if_neg hlen, if_neg hsign]
      cases htry : tryGuesses cashFlows maxIterations precision
          [initialGuess, 0.01, 0.05, 0.1, 0.15, 0.2, 0.25, 0.3, 0.5, 0.75, 1.0] with
      | some res =>
        rw [htry] at hirr
        obtain ⟨a, b, hres, fuel, rate, hn⟩ :=
          tryGuesses_some_inv cashFlows maxIterations precision _ res htry
        rw [hirr, hres] at h
        simp only [Option.some.injEq] at h
        subst h
        exact ⟨b, by rw [hirr, hres], fuel, rate, hn⟩
      | none =>
        rw [htry] at hirr
        rw [hirr] at h
        simp at h

/-- Claim C1 amended: whenever calculateIRR converges (irr non-null),
the returned npv is the NPV freshly evaluated at the returned rate, and
the final Newton-Raphson step that produced the returned rate had step
size below the precision parameter (the derivative guard not having
fired at the previous rate); the NPV residual itself need not be below
the precision. -/
theorem calculateIRR_converged_final_step (cashFlows : List ℚ) (initialGuess : ℚ)
    (maxIterations : ℕ) (precision : ℚ) (r : ℚ)
    (h : (calculateIRR cashFlows initialGuess maxIterations precision).irr = some r) :
    (calculateIRR cashFlows initialGuess maxIterations precision).npv
        = some (calculateNPV cashFlows r) ∧
    ∃ prev, ¬ |calculateNPVDerivative cashFlows prev| < precision ∧
      r = prev - calculateNPV cashFlows prev / calculateNPVDerivative cashFlows prev ∧
      |r - prev| < precision := by
  obtain ⟨v, heq, fuel, rate, hn⟩ :=
    calculateIRR_some_inv cashFlows initialGuess maxIterations precision r h
  obtain ⟨hv, prev, h1, hr, h2⟩ :=
    newtonIterate_some_inv cashFlows precision fuel rate r v hn
  subst hv
  exact ⟨by rw [heq], prev, h1, hr, h2⟩

/-- Witness for the amended convergence theorem: the series [-1, 1]
converges from the default guess after four Newton steps
0.1, -1/100, -1/10^4, -1/10^8 to the rate -1/10^16. -/
theorem calculateIRR_converged_final_step_witness :
    (calculateIRR [-1, 1] 0.1 100 0.0000001).npv
        = some (calculateNPV [-1, 1] (-1/10000000000000000)) ∧
    ∃ prev, ¬ |calculateNPVDerivative [-1, 1] prev| < 0.0000001 ∧
      -1/10000000000000000
        = prev - calculateNPV [-1, 1] prev / calculateNPVDerivative [-1, 1] prev ∧
      |(-1/10000000000000000 : ℚ) - prev| < 0.0000001 := by
  have hb1 : newtonBody [-1, 1] 0.0000001 0.1 = Sum.inr (-1/100) := by
    norm_num [newtonBody, calculateNPV, calculateNPVDerivative, List.enum, List.enumFrom,
      abs_lt]
  have hb2 : newtonBody [-1, 1] 0.0000001 (-1/100) = Sum.inr (-1/10000) := by
    norm_num [newtonBody, calculateNPV, calculateNPVDerivative, List.enum, List.enumFrom,
      abs_lt]
  have hb3 : newtonBody [-1, 1] 0.0000001 (-1/10000) = Sum.inr (-1/100000000) := by
    norm_num [newtonBody, calculateNPV, calculateNPVDerivative, List.enum, List.enumFrom,
      abs_lt]
  have hb4 : newtonBody [-1, 1] 0.0000001 (-1/100000000) =
      Sum.inl (some (-1/10000000000000000, 1/9999999999999999)) := by
    norm_num [newtonBody, calculateNPV, calculateNPVDerivative, List.enum, List.enumFrom,
      abs_lt]
  have hiter : newtonIterate [-1, 1] 0.0000001 0.1 99 =
      some (-1/10000000000000000, 1/9999999999999999) := by
    rw [show (99 : ℕ) = 98 + 1 from rfl, newtonIterate_of_inr _ _ _ _ hb1,
      show (98 : ℕ) = 97 + 1 from rfl, newtonIterate_of_inr _ _ _ _ hb2,
      show (97 : ℕ) = 96 + 1 from rfl, newtonIterate_of_inr _ _ _ _ hb3,
      newtonIterate_of_inl _ _ _ _ hb4]
  have h : (calculateIRR [-1, 1] 0.1 100 0.0000001).irr = some (-1/10000000000000000) := by
    unfold calculateIRR
    rw [if_neg (by norm_num), if_neg (by norm_num [List.any_cons, List.any_nil]),
      tryGuesses_cons, show (100 : ℕ) - 1 = 99 from rfl, hiter]
  exact calculateIRR_converged_final_step [-1, 1] 0.1 100 0.0000001
    (-1/10000000000000000) h

theorem calculateIRR_shape (cashFlows : List ℚ) (initialGuess : ℚ)
    (maxIterations : ℕ) (precision : ℚ) :
    ((calculateIRR cashFlows initialGuess maxIterations precision).irr = none ∧
      (calculateIRR cashFlows initialGuess maxIterations precision).npv = none) ∨
    (∃ a b, calculateIRR cashFlows initialGuess maxIterations precision
        = { irr := some a, npv := some b, error := none }) := by
  by_cases hlen : cashFlows.length < 2
  · left
    rw [show calculateIRR cashFlows initialGuess maxIterations precision =
        { irr := none, npv := none,
          error := some ⟨"calculation",
            "Insufficient data for IRR calculation. Need at least initial investment and one cash flow.",
            Severity.error⟩ } from by unfold calculateIRR; rw [if_pos hlen]]
    exact ⟨rfl, rfl⟩
  · by_cases hsign : ¬ cashFlows.any (fun cf => cf > 0) = true
        ∨ ¬ cashFlows.any (fun cf => cf < 0) = true
    · left
      rw [show calculateIRR cashFlows initialGuess maxIterations precision =
          { irr := none, npv := none,
            error := some ⟨"calculation",
              "IRR calculation requires both positive and negative cash flows.",
              Severity.error⟩ } from by unfold calculateIRR; rw [if_neg hlen, if_pos hsign]]
      exact ⟨rfl, rfl⟩
    · have hirr : calculateIRR cashFlows initialGuess maxIterations precision =
          match tryGuesses cashFlows maxIterations precision
            [initialGuess, 0.01, 0.05, 0.1, 0.15, 0.2, 0.25, 0.3, 0.5, 0.75, 1.0] with
          | some r => r
          | none =>
            { irr := none, npv := none,
              error := some ⟨"calculation",
                "IRR calculation failed to converge with any initial guess.",
                Severity.error⟩ } := by
        unfold calculateIRR
        rw [if_neg hlen, if_neg hsign]
      cases htry : tryGuesses cashFlows maxIterations precision
          [initialGuess, 0.01, 0.05, 0.1, 0.15, 0.2, 0.25, 0.3, 0.5, 0.75, 1.0] with
      | some res =>
        rw [htry] at hirr
        obtain ⟨a, b, hres, -⟩ :=
          tryGuesses_some_inv cashFlows maxIterations precision _ res htry
        right
        exact ⟨a, b, by rw [hirr, hres]⟩
      | none =>
        rw [htry] at hirr
        left
        rw [hirr]
        exact ⟨rfl, rfl⟩

theorem calculateProjectIRR_proj (project : Project) :
    (calculateProjectIRR project).irr
        = (calculateIRR (projectToCashFlowArray project.initialInvestment
            project.cashFlows project.saleProceeds) 0.1 100 0.0000001).irr ∧
    (calculateProjectIRR project).npv
        = (calculateIRR (projectToCashFlowArray project.initialInvestment
            project.cashFlows project.saleProceeds) 0.1 100 0.0000001).npv := by
  unfold calculateProjectIRR
  by_cases hm : mightHaveMultipleIRRSolutions (projectToCashFlowArray
      project.initialInvestment project.cashFlows project.saleProceeds) = true
  · rw [if_pos hm]
    by_cases hr : (calculateIRR (projectToCashFlowArray project.initialInvestment
        project.cashFlows project.saleProceeds) 0.1 100 0.0000001).irr ≠ none
    · rw [if_pos hr]
      exact ⟨rfl, rfl⟩
    · rw [if_neg hr]
      exact ⟨rfl, rfl⟩
  · rw [if_neg hm]
    exact ⟨rfl, rfl⟩

/-- Claim C8: every IRRResult produced by calculateIRR and by
calculateProjectIRR has irr and npv either both non-null or both null,
and attaching the possible-multiple-roots warning in calculateProjectIRR
changes only the diagnostic: the returned irr and npv always equal
those of the underlying calculateIRR call on the built series. -/
theorem irr_npv_presence_invariant :
    (∀ (cashFlows : List ℚ) (initialGuess : ℚ) (maxIterations : ℕ) (precision : ℚ),
      ((calculateIRR cashFlows initialGuess maxIterations precision).irr = none ↔
        (calculateIRR cashFlows initialGuess maxIterations precision).npv = none)) ∧
    (∀ project : Project,
      ((calculateProjectIRR project).irr = none ↔ (calculateProjectIRR project).npv = none)) ∧
    (∀ project : Project,
      (calculateProjectIRR project).irr
          = (calculateIRR (projectToCashFlowArray project.initialInvestment
              project.cashFlows project.saleProceeds) 0.1 100 0.0000001).irr ∧
      (calculateProjectIRR project).npv
          = (calculateIRR (projectToCashFlowArray project.initialInvestment
              project.cashFlows project.saleProceeds) 0.1 100 0.0000001).npv) := by
  have hIRR : ∀ (cashFlows : List ℚ) (initialGuess : ℚ) (maxIterations : ℕ) (precision : ℚ),
      ((calculateIRR cashFlows initialGuess maxIterations precision).irr = none ↔
        (calculateIRR cashFlows initialGuess maxIterations precision).npv = none) := by
    intro cashFlows initialGuess maxIterations precision
    rcases calculateIRR_shape cashFlows initialGuess maxIterations precision with
      ⟨h1, h2⟩ | ⟨a, b, heq⟩
    · rw [h1, h2]
    · rw [heq]
      simp
  refine ⟨hIRR, ?_, calculateProjectIRR_proj⟩
  intro project
  obtain ⟨h1, h2⟩ := calculateProjectIRR_proj project
  rw [h1, h2]
  exact hIRR _ 0.1 100 0.0000001

/-- Witness instantiating the presence invariant at a concrete failing
series and a concrete project. -/
theorem irr_npv_presence_invariant_witness :
    ((calculateIRR [1] 0.1 100 0.0000001).irr = none ↔
      (calculateIRR [1] 0.1 100 0.0000001).npv = none) ∧
    ((calculateProjectIRR ⟨⟨100000⟩,
        [⟨1, PeriodType.annual, 3000⟩, ⟨2, PeriodType.annual, 3500⟩],
        ⟨123000, 2, HoldingPeriodType.years⟩⟩).irr = none ↔
      (calculateProjectIRR ⟨⟨100000⟩,
        [⟨1, PeriodType.annual, 3000⟩, ⟨2, PeriodType.annual, 3500⟩],
        ⟨123000, 2, HoldingPeriodType.years⟩⟩).npv = none) :=
  ⟨irr_npv_presence_invariant.1 [1] 0.1 100 0.0000001,
   irr_npv_presence_invariant.2.1 ⟨⟨100000⟩,
     [⟨1, PeriodType.annual, 3000⟩, ⟨2, PeriodType.annual, 3500⟩],
     ⟨123000, 2, HoldingPeriodType.years⟩⟩⟩

theorem signQ_eq_zero (x : ℚ) : signQ x = 0 ↔ x = 0 := by
  unfold signQ
  by_cases h1 : 0 < x
  · rw [if_pos h1]
    constructor
    · intro h
      exact absurd h (by norm_num)
    · intro h
      exact absurd (h ▸ h1) (by norm_num)
  · rw [if_neg h1]
    by_cases h2 : x < 0
    · rw [if_pos h2]
      constructor
      · intro h
        exact absurd h (by norm_num)
      · intro h
        exact absurd (h ▸ h2) (by norm_num)
    · rw [if_neg h2]
      simp
      linarith

theorem countChanges_nil : countChanges [] = 0 := rfl

theorem countChanges_singleton (a : Int) : countChanges [a] = 0 := rfl

theorem countChanges_cons_cons (a b : Int) (t : List Int) :
    countChanges (a :: b :: t) = (if a ≠ b then 1 else 0) + countChanges (b :: t) := rfl

theorem countChanges_const : ∀ (l : List Int) (c : Int),
    (∀ s ∈ l, s = c) → countChanges (c :: l) = 0 := by
  intro l
  induction l with
  | nil => intro c _; rfl
  | cons s t ih =>
    intro c h
    have hs : s = c := h s (List.mem_cons_self s t)
    subst hs
    rw [countChanges_cons_cons, if_neg (by simp), ih s (fun x hx => h x (List.mem_cons_of_mem s hx))]

theorem foldl_signStep_count : ∀ (l : List ℚ) (c : ℕ) (p : Int),
    (l.foldl signStep (c, p)).1 = c + ccFrom p ((l.filter (fun x => x ≠ 0)).map signQ) := by
  intro l
  induction l with
  | nil => intro c p; simp [ccFrom]
  | cons x t ih =>
    intro c p
    rw [List.foldl_cons]
    by_cases hx : x = 0
    · have hsx : signQ x = 0 := (signQ_eq_zero x).mpr hx
      have hstep : signStep (c, p) x = (c, p) := by
        unfold signStep
        rw [hsx]
        simp
      rw [hstep, ih c p, List.filter_cons_of_neg (by simpa using hx)]
    · have hsx : signQ x ≠ 0 := fun h => hx ((signQ_eq_zero x).mp h)
      have hstep : signStep (c, p) x =
          (c + (if p ≠ 0 ∧ signQ x ≠ p then 1 else 0), signQ x) := by
        simp only [signStep]
        by_cases hc : p ≠ 0 ∧ signQ x ≠ p
        · rw [if_pos ⟨hsx, hc.1, hc.2⟩, if_pos hsx, if_pos hc]
        · rw [if_neg (fun h => hc ⟨h.2.1, h.2.2⟩), if_pos hsx, if_neg hc]
          simp
      rw [hstep, ih, List.filter_cons_of_pos (by simpa using hx), List.map_cons]
      show c + (if p ≠ 0 ∧ signQ x ≠ p then 1 else 0)
          + ccFrom (signQ x) ((t.filter (fun x => x ≠ 0)).map signQ)
        = c + ccFrom p (signQ x :: (t.filter (fun x => x ≠ 0)).map signQ)
      rw [show ccFrom p (signQ x :: (t.filter (fun x => x ≠ 0)).map signQ)
          = (if p ≠ 0 ∧ signQ x ≠ p then 1 else 0)
            + ccFrom (signQ x) ((t.filter (fun x => x ≠ 0)).map signQ) from rfl]
      omega

theorem ccFrom_countChanges : ∀ (l : List Int) (p : Int), (∀ s ∈ l, s ≠ 0) →
    ccFrom p l = if p = 0 then countChanges l else countChanges (p :: l) := by
  intro l
  induction l with
  | nil =>
    intro p _
    by_cases hp : p = 0
    · rw [if_pos hp]
      rfl
    · rw [if_neg hp]
      rfl
  | cons s t ih =>
    intro p h
    have hs : s ≠ 0 := h s (List.mem_cons_self s t)
    have ht : ∀ x ∈ t, x ≠ 0 := fun x hx => h x (List.mem_cons_of_mem s hx)
    have hcc : ccFrom s t = countChanges (s :: t) := by
      rw [ih s ht, if_neg hs]
    by_cases hp : p = 0
    · rw [if_pos hp]
      subst hp
      show (if (0 : Int) ≠ 0 ∧ s ≠ 0 then 1 else 0) + ccFrom s t = countChanges (s :: t)
      rw [if_neg (by simp), hcc]
      omega
    · rw [if_neg hp]
      show (if p ≠ 0 ∧ s ≠ p then 1 else 0) + ccFrom s t = countChanges (p :: s :: t)
      rw [countChanges_cons_cons, hcc]
      by_cases hps : s = p
      · rw [if_neg (by simp [hps]), if_neg (by simp [hps])]
      · rw [if_pos ⟨hp, hps⟩, if_pos (fun h => hps h.symm)]

theorem filteredSigns_nonzero (l : List ℚ) :
    ∀ s ∈ (l.filter (fun x => x ≠ 0)).map signQ, s ≠ 0 := by
  intro s hs
  obtain ⟨x, hx, hsx⟩ := List.mem_map.mp hs
  have hx0 : x ≠ 0 := by
    have := List.of_mem_filter hx
    simpa using this
  intro h0
  exact hx0 ((signQ_eq_zero x).mp (hsx ▸ h0))

theorem mightHaveMultiple_eq_decide (cashFlows : List ℚ)
    (hlen : ¬ cashFlows.length < 3) :
    mightHaveMultipleIRRSolutions cashFlows = decide (1 < signChanges cashFlows) := by
  have hcount : (cashFlows.tail.foldl signStep (0, signQ (cashFlows.headD 0))).1
      = signChanges cashFlows := by
    cases cashFlows with
    | nil => simp [signChanges, countChanges_nil]
    | cons c0 t =>
      show (t.foldl signStep (0, signQ c0)).1 = signChanges (c0 :: t)
      rw [foldl_signStep_count t 0 (signQ c0)]
      unfold signChanges
      by_cases hc0 : c0 = 0
      · rw [List.filter_cons_of_neg (by simpa using hc0),
          ccFrom_countChanges _ _ (filteredSigns_nonzero t),
          if_pos ((signQ_eq_zero c0).mpr hc0)]
        omega
      · rw [List.filter_cons_of_pos (by simpa using hc0), List.map_cons,
          ccFrom_countChanges _ _ (filteredSigns_nonzero t),
          if_neg (fun h => hc0 ((signQ_eq_zero c0).mp h))]
        omega
  simp only [mightHaveMultipleIRRSolutions]
  rw [if_neg hlen, hcount]

/-- Claim C6: mightHaveMultipleIRRSolutions returns false on every
series shorter than 3 entries; on longer series it returns true exactly
when the number of transitions between a positive and a negative sign
(zeros neither counting as a sign nor updating the tracked previous
sign) exceeds 1; and on any series of one strictly negative entry
followed only by non-negative entries it returns false. -/
theorem mightHaveMultiple_signChanges (cashFlows : List ℚ) :
    (cashFlows.length < 3 → mightHaveMultipleIRRSolutions cashFlows = false) ∧
    (3 ≤ cashFlows.length →
      (mightHaveMultipleIRRSolutions cashFlows = true ↔ 1 < signChanges cashFlows)) ∧
    (∀ (a : ℚ) (rest : List ℚ), cashFlows = a :: rest → a < 0 →
      (∀ x ∈ rest, 0 ≤ x) → mightHaveMultipleIRRSolutions cashFlows = false) := by
  refine ⟨?_, ?_, ?_⟩
  · intro h
    simp only [mightHaveMultipleIRRSolutions]
    rw [if_pos h]
  · intro h3
    rw [mightHaveMultiple_eq_decide cashFlows (by omega)]
    exact decide_eq_true_iff
  · intro a rest heq ha hrest
    subst heq
    by_cases h3 : (a :: rest).length < 3
    · simp only [mightHaveMultipleIRRSolutions]
      rw [if_pos h3]
    · rw [mightHaveMultiple_eq_decide _ h3]
      apply decide_eq_false
      have hsa : signQ a = -1 := by
        unfold signQ
        rw [if_neg (by linarith), if_pos ha]
      have hones : ∀ s ∈ (rest.filter (fun x => x ≠ 0)).map signQ, s = 1 := by
        intro s hs
        obtain ⟨x, hx, hsx⟩ := List.mem_map.mp hs
        have hx0 : x ≠ 0 := by simpa using (List.of_mem_filter hx)
        have hxmem : x ∈ rest := List.mem_of_mem_filter hx
        have hxpos : 0 < x := lt_of_le_of_ne (hrest x hxmem) (Ne.symm hx0)
        rw [← hsx]
        unfold signQ
        rw [if_pos hxpos]
      have hfs : signChanges (a :: rest)
          = countChanges (-1 :: (rest.filter (fun x => x ≠ 0)).map signQ) := by
        unfold signChanges
        rw [List.filter_cons_of_pos (by simpa using (ne_of_lt ha)), List.map_cons, hsa]
      rw [hfs]
      cases hfr : (rest.filter (fun x => x ≠ 0)).map signQ with
      | nil => rw [countChanges_singleton]; omega
      | cons s t' =>
        have hs1 : s = 1 := hones s (by rw [hfr]; exact List.mem_cons_self s t')
        have ht1 : ∀ x ∈ t', x = 1 := fun x hx =>
          hones x (by rw [hfr]; exact List.mem_cons_of_mem s hx)
        subst hs1
        rw [countChanges_cons_cons, countChanges_const t' 1 ht1, if_pos (by norm_num)]
        omega

/-- Witness for the multiplicity heuristic theorem: a genuinely
alternating series of length 4 satisfies the equivalence, and a
single-sign-change series returns false. -/
theorem mightHaveMultiple_signChanges_witness :
    (mightHaveMultipleIRRSolutions [-1, 2, -3, 4] = true ↔
      1 < signChanges [-1, 2, -3, 4]) ∧
    mightHaveMultipleIRRSolutions [-5, 0, 2, 3] = false :=
  ⟨(mightHaveMultiple_signChanges [-1, 2, -3, 4]).2.1 (by norm_num),
   (mightHaveMultiple_signChanges [-5, 0, 2, 3]).2.2 (-5) [0, 2, 3] rfl (by norm_num)
     (by norm_num)⟩

theorem hpEff_pos (hp : ℕ) (C1 C2 : Prop) [Decidable C1] [Decidable C2] (h : 1 ≤ hp) :
    1 ≤ (if C1 then (hp + 11) / 12 else if C2 then hp * 12 else hp) := by
  split_ifs <;> omega

/-- Claim C7: for every present initial investment, non-empty cash-flow
list with positive periods and sale proceeds with positive holding
period (the shape guaranteed by upstream validation), entry 0 of the
built series is the negation of initialInvestment.total. -/
theorem projectToCashFlowArray_head (ii : InitialInvestment) (cfs : List CashFlow)
    (sp : SaleProceeds) (hne : cfs ≠ []) (hper : ∀ cf ∈ cfs, 1 ≤ cf.period)
    (hhp : 1 ≤ sp.holdingPeriod) :
    (projectToCashFlowArray ii cfs sp).head? = some (-ii.total) := by
  simp only [projectToCashFlowArray]
  obtain ⟨k, hk⟩ : ∃ k, (if sp.holdingPeriodType = HoldingPeriodType.months
        ∧ ¬ cfs.any (fun cf => cf.periodType = PeriodType.monthly) = true
      then (sp.holdingPeriod + 11) / 12
      else if sp.holdingPeriodType = HoldingPeriodType.years
        ∧ cfs.any (fun cf => cf.periodType = PeriodType.monthly) = true
      then sp.holdingPeriod * 12
      else sp.holdingPeriod) = k + 1 := by
    have := hpEff_pos sp.holdingPeriod
      (sp.holdingPeriodType = HoldingPeriodType.months
        ∧ ¬ cfs.any (fun cf => cf.periodType = PeriodType.monthly) = true)
      (sp.holdingPeriodType = HoldingPeriodType.years
        ∧ cfs.any (fun cf => cf.periodType = PeriodType.monthly) = true) hhp
    exact ⟨(if sp.holdingPeriodType = HoldingPeriodType.months
        ∧ ¬ cfs.any (fun cf => cf.periodType = PeriodType.monthly) = true
      then (sp.holdingPeriod + 11) / 12
      else if sp.holdingPeriodType = HoldingPeriodType.years
        ∧ cfs.any (fun cf => cf.periodType = PeriodType.monthly) = true
      then sp.holdingPeriod * 12
      else sp.holdingPeriod) - 1, by omega⟩
  rw [hk]
  rw [show ∀ (M R : List ℚ), ([-ii.total] ++ M) ++ R = -ii.total :: (M ++ R) from
    fun M R => by simp]
  rfl

/-- Witness for the head theorem at scenario D inputs. -/
theorem projectToCashFlowArray_head_witness :
    (projectToCashFlowArray ⟨100000⟩
      [⟨1, PeriodType.annual, 3000⟩, ⟨2, PeriodType.annual, 3500⟩]
      ⟨123000, 2, HoldingPeriodType.years⟩).head? = some (-100000) := by
  have h := projectToCashFlowArray_head ⟨100000⟩
    [⟨1, PeriodType.annual, 3000⟩, ⟨2, PeriodType.annual, 3500⟩]
    ⟨123000, 2, HoldingPeriodType.years⟩ (by simp)
    (by intro cf hcf; fin_cases hcf <;> norm_num) (by norm_num)
  simpa using h

theorem getD_replicate_lt : ∀ (n k : ℕ) (c d : ℚ), k < n →
    (List.replicate n c).getD k d = c := by
  intro n
  induction n with
  | zero => intro k c d h; omega
  | succ m ih =>
    intro k c d h
    cases k with
    | zero => rfl
    | succ j =>
      rw [List.replicate_succ, List.getD_cons_succ]
      exact ih j c d (by omega)

theorem set_replicate_last : ∀ (k : ℕ) (v : ℚ),
    (List.replicate (k + 1) (0:ℚ)).set k v = List.replicate k 0 ++ [v] := by
  intro k
  induction k with
  | zero => intro v; rfl
  | succ j ih =>
    intro v
    rw [show List.replicate (j + 1 + 1) (0:ℚ) = 0 :: List.replicate (j + 1) 0 from
      List.replicate_succ 0 (j + 1), List.set_cons_succ, ih]
    rw [show List.replicate (j + 1) (0:ℚ) = 0 :: List.replicate j 0 from
      List.replicate_succ 0 j]
    rfl

theorem cons_replicate_set_add (a np : ℚ) (n : ℕ) (hn : 1 ≤ n) :
    (a :: List.replicate n (0:ℚ)).set n ((a :: List.replicate n (0:ℚ)).getD n 0 + np)
      = a :: (List.replicate (n - 1) 0 ++ [np]) := by
  obtain ⟨k, rfl⟩ : ∃ k, n = k + 1 := ⟨n - 1, by omega⟩
  rw [List.getD_cons_succ, getD_replicate_lt (k + 1) k 0 0 (by omega),
    List.set_cons_succ, set_replicate_last]
  norm_num

/-- Claim C10: with a present but empty cash-flow list, the builder
does not fail: the target unit is annual (no monthly entry exists, and
Math.max over the empty key set makes the materialization loop run
zero times), the holding period becomes h = ceil(holdingPeriod/12) for
a months unit and h = holdingPeriod for a years unit, and the result is
the series of length h+1 with -total first, netProceeds at index h and
zeros in between. -/
theorem projectToCashFlowArray_empty_cashFlows (ii : InitialInvestment)
    (sp : SaleProceeds) (h : ℕ)
    (hdef : h = if sp.holdingPeriodType = HoldingPeriodType.months
      then (sp.holdingPeriod + 11) / 12 else sp.holdingPeriod)
    (hhp : 1 ≤ sp.holdingPeriod) :
    projectToCashFlowArray ii [] sp
        = -ii.total :: (List.replicate (h - 1) 0 ++ [sp.netProceeds]) ∧
    (projectToCashFlowArray ii [] sp).length = h + 1 ∧
    (projectToCashFlowArray ii [] sp).getD 0 0 = -ii.total ∧
    (projectToCashFlowArray ii [] sp).getD h 0 = sp.netProceeds ∧
    ∀ i, 0 < i → i < h → (projectToCashFlowArray ii [] sp).getD i 0 = 0 := by
  have hpos : 1 ≤ h := by
    rw [hdef]
    split_ifs <;> omega
  obtain ⟨np, hp, htype⟩ := sp
  have hmain : projectToCashFlowArray ii [] ⟨np, hp, htype⟩
      = -ii.total :: (List.replicate (h - 1) 0 ++ [np]) := by
    cases htype with
    | months =>
      have hh : h = (hp + 11) / 12 := by simpa using hdef
      simp only [projectToCashFlowArray, List.any_nil, List.mergeSort_nil, List.foldl_nil,
        List.map_nil, List.range'_zero, List.append_nil, List.singleton_append,
        Nat.add_sub_cancel]
      rw [if_pos (by simp)]
      rw [← hh]
      exact cons_replicate_set_add (-ii.total) np h hpos
    | years =>
      have hh : h = hp := by simpa using hdef
      simp only [projectToCashFlowArray, List.any_nil, List.mergeSort_nil, List.foldl_nil,
        List.map_nil, List.range'_zero, List.append_nil, List.singleton_append,
        Nat.add_sub_cancel]
      rw [if_neg (by simp), if_neg (by simp)]
      rw [← hh]
      exact cons_replicate_set_add (-ii.total) np h hpos
  refine ⟨hmain, ?_, ?_, ?_, ?_⟩
  · rw [hmain]
    simp [List.length_replicate]
    omega
  · rw [hmain]
    rfl
  · rw [hmain]
    obtain ⟨k, rfl⟩ : ∃ k, h = k + 1 := ⟨h - 1, by omega⟩
    rw [List.getD_cons_succ, show k + 1 - 1 = k from rfl,
      List.getD_append_right (List.replicate k (0:ℚ)) [np] 0 k
        (by rw [List.length_replicate]), List.length_replicate]
    simp
  · intro i hi0 hih
    rw [hmain]
    obtain ⟨j, rfl⟩ : ∃ j, i = j + 1 := ⟨i - 1, by omega⟩
    rw [List.getD_cons_succ, List.getD_append (List.replicate (h - 1) (0:ℚ)) [np] 0 j
      (by rw [List.length_replicate]; omega)]
    exact getD_replicate_lt (h - 1) j 0 0 (by omega)

/-- Witness for the empty-cash-flow theorem: a 30-month holding period
becomes 3 annual periods, giving [-50000, 0, 0, 70000]. -/
theorem projectToCashFlowArray_empty_cashFlows_witness :
    projectToCashFlowArray ⟨50000⟩ [] ⟨70000, 30, HoldingPeriodType.months⟩
        = -50000 :: (List.replicate 2 0 ++ [70000]) ∧
    (projectToCashFlowArray ⟨50000⟩ [] ⟨70000, 30, HoldingPeriodType.months⟩).length = 4 ∧
    (projectToCashFlowArray ⟨50000⟩ [] ⟨70000, 30, HoldingPeriodType.months⟩).getD 3 0
        = 70000 := by
  obtain ⟨h1, h2, h3, h4, h5⟩ := projectToCashFlowArray_empty_cashFlows ⟨50000⟩
    ⟨70000, 30, HoldingPeriodType.months⟩ 3 (by norm_num) (by norm_num)
  exact ⟨by simpa using h1, by simpa using h2, by simpa using h4⟩

/-! Helper lemmas for the association-list model of the JavaScript Map. -/

theorem mapGet_nil (k : ℕ) : mapGet [] k = none := rfl

theorem mapGet_cons (k : ℕ) (v : ℚ) (m : List (ℕ × ℚ)) (i : ℕ) :
    mapGet ((k, v) :: m) i = if k = i then some v else mapGet m i := by
  unfold mapGet
  by_cases h : k = i
  · rw [if_pos h, List.find?_cons_of_pos _ (by simpa using h)]
    rfl
  · rw [if_neg h, List.find?_cons_of_neg _ (by simpa using h)]

theorem mapGet_eq_none (m : List (ℕ × ℚ)) (k : ℕ)
    (h : k ∉ m.map Prod.fst) : mapGet m k = none := by
  induction m with
  | nil => rfl
  | cons p m' ih =>
    rw [show p = (p.1, p.2) from rfl, mapGet_cons]
    rw [List.map_cons, List.mem_cons] at h
    push_neg at h
    rw [if_neg (fun hc => h.1 hc.symm), ih h.2]

theorem any_key_iff (m : List (ℕ × ℚ)) (k : ℕ) :
    m.any (fun p => p.1 = k) = true ↔ k ∈ m.map Prod.fst := by
  rw [List.any_eq_true]
  constructor
  · rintro ⟨p, hp, hk⟩
    rw [List.mem_map]
    exact ⟨p, hp, by simpa using hk⟩
  · intro h
    obtain ⟨p, hp, hk⟩ := List.mem_map.mp h
    exact ⟨p, hp, by simpa using hk⟩

theorem mapSet_keys_mem (m : List (ℕ × ℚ)) (k : ℕ) (v : ℚ)
    (h : k ∈ m.map Prod.fst) :
    (mapSet m k v).map Prod.fst = m.map Prod.fst := by
  unfold mapSet
  rw [if_pos ((any_key_iff m k).mpr h)]
  rw [List.map_map]
  apply List.map_congr_left
  intro p hp
  by_cases hpk : p.1 = k
  · simp [hpk]
  · simp [hpk]

theorem mapSet_keys_not_mem (m : List (ℕ × ℚ)) (k : ℕ) (v : ℚ)
    (h : k ∉ m.map Prod.fst) :
    mapSet m k v = m ++ [(k, v)] := by
  unfold mapSet
  rw [if_neg (fun hc => h ((any_key_iff m k).mp hc))]

theorem mapSet_nodup (m : List (ℕ × ℚ)) (k : ℕ) (v : ℚ)
    (h : (m.map Prod.fst).Nodup) :
    ((mapSet m k v).map Prod.fst).Nodup := by
  by_cases hk : k ∈ m.map Prod.fst
  · rw [mapSet_keys_mem m k v hk]
    exact h
  · rw [mapSet_keys_not_mem m k v hk, List.map_append]
    simp only [List.map_cons, List.map_nil]
    rw [List.nodup_append]
    refine ⟨h, List.nodup_singleton k, fun a ha hb => ?_⟩
    have hak : a = k := by simpa using hb
    exact hk (hak ▸ ha)

theorem mapSet_keys_sub (m : List (ℕ × ℚ)) (k : ℕ) (v : ℚ) (j : ℕ)
    (h : j ∈ (mapSet m k v).map Prod.fst) : j ∈ m.map Prod.fst ∨ j = k := by
  by_cases hk : k ∈ m.map Prod.fst
  · rw [mapSet_keys_mem m k v hk] at h
    exact Or.inl h
  · rw [mapSet_keys_not_mem m k v hk, List.map_append] at h
    rcases List.mem_append.mp h with h1 | h2
    · exact Or.inl h1
    · right
      simpa using h2

theorem map_update_eq_self (m : List (ℕ × ℚ)) (k : ℕ) (v : ℚ)
    (h : k ∉ m.map Prod.fst) :
    m.map (fun p => if p.1 = k then (k, v) else p) = m := by
  have : m.map (fun p => if p.1 = k then (k, v) else p) = m.map id := by
    apply List.map_congr_left
    intro p hp
    rw [if_neg (fun hc => h (by
      rw [List.mem_map]
      exact ⟨p, hp, hc⟩))]
    rfl
  rw [this, List.map_id]

theorem mapSet_cons_ne (a : ℕ) (b : ℚ) (m : List (ℕ × ℚ)) (k : ℕ) (v : ℚ)
    (hak : a ≠ k) :
    mapSet ((a, b) :: m) k v = (a, b) :: mapSet m k v := by
  unfold mapSet
  by_cases hc : m.any (fun p => p.1 = k) = true
  · rw [if_pos (by simp [List.any_cons, hc]), if_pos hc, List.map_cons, if_neg (by simpa using hak)]
  · rw [if_neg (by simp [List.any_cons, hc, hak]), if_neg hc]
    rfl

theorem mapSet_sum : ∀ (m : List (ℕ × ℚ)) (k : ℕ) (w : ℚ),
    (m.map Prod.fst).Nodup →
    ((mapSet m k ((mapGet m k).getD 0 + w)).map Prod.snd).sum
      = (m.map Prod.snd).sum + w := by
  intro m
  induction m with
  | nil =>
    intro k w _
    rw [mapSet_keys_not_mem [] k _ (by simp)]
    simp [mapGet_nil]
  | cons p m' ih =>
    intro k w hnd
    obtain ⟨a, b⟩ := p
    rw [List.map_cons, List.nodup_cons] at hnd
    by_cases hak : a = k
    · subst hak
      have hget : mapGet ((a, b) :: m') a = some b := by
        rw [mapGet_cons, if_pos rfl]
      have hset : mapSet ((a, b) :: m') a ((mapGet ((a, b) :: m') a).getD 0 + w)
          = (a, b + w) :: m' := by
        rw [hget]
        unfold mapSet
        rw [if_pos (by simp [List.any_cons])]
        rw [List.map_cons, if_pos rfl, map_update_eq_self m' a _ hnd.1]
        rfl
      rw [hset]
      simp only [List.map_cons, List.sum_cons]
      ring
    · rw [mapGet_cons, if_neg hak, mapSet_cons_ne a b m' k _ (fun h => hak h)]
      simp only [List.map_cons, List.sum_cons]
      rw [ih k w hnd.2]
      ring

theorem foldl_mapSet_sum (f : ℕ → ℕ) (u : ℚ) : ∀ (idxs : List ℕ) (m : List (ℕ × ℚ)),
    (m.map Prod.fst).Nodup →
    (((idxs.foldl (fun acc i =>
        mapSet acc (f i) ((mapGet acc (f i)).getD 0 + u)) m).map Prod.fst).Nodup ∧
      ∀ j ∈ (idxs.foldl (fun acc i =>
        mapSet acc (f i) ((mapGet acc (f i)).getD 0 + u)) m).map Prod.fst,
        j ∈ m.map Prod.fst ∨ ∃ i ∈ idxs, j = f i) ∧
    ((idxs.foldl (fun acc i =>
        mapSet acc (f i) ((mapGet acc (f i)).getD 0 + u)) m).map Prod.snd).sum
      = (m.map Prod.snd).sum + (idxs.length : ℚ) * u := by
  intro idxs
  induction idxs with
  | nil =>
    intro m hnd
    refine ⟨⟨hnd, fun j hj => Or.inl hj⟩, ?_⟩
    simp
  | cons i t ih =>
    intro m hnd
    rw [List.foldl_cons]
    obtain ⟨⟨ihnd, ihsub⟩, ihsum⟩ := ih (mapSet m (f i) ((mapGet m (f i)).getD 0 + u))
      (mapSet_nodup m (f i) _ hnd)
    refine ⟨⟨ihnd, ?_⟩, ?_⟩
    · intro j hj
      rcases ihsub j hj with hmem | ⟨i', hi', hji'⟩
      · rcases mapSet_keys_sub m (f i) _ j hmem with h1 | h2
        · exact Or.inl h1
        · exact Or.inr ⟨i, List.mem_cons_self i t, h2⟩
      · exact Or.inr ⟨i', List.mem_cons_of_mem i hi', hji'⟩
    · rw [ihsum, mapSet_sum m (f i) u hnd]
      simp only [List.length_cons]
      push_cast
      ring

theorem groupStep_props (b : Bool) (m : List (ℕ × ℚ)) (cf : CashFlow)
    (hnd : (m.map Prod.fst).Nodup) (hkeys : ∀ j ∈ m.map Prod.fst, 1 ≤ j)
    (hp : 1 ≤ cf.period) :
    ((groupStep b m cf).map Prod.fst).Nodup ∧
    (∀ j ∈ (groupStep b m cf).map Prod.fst, 1 ≤ j) ∧
    ((groupStep b m cf).map Prod.snd).sum
      = (m.map Prod.snd).sum + cf.netCashFlow := by
  unfold groupStep
  by_cases h1 : b = true ∧ cf.periodType = PeriodType.annual
  · rw [if_pos h1]
    obtain ⟨⟨hnd2, hsub⟩, hsum⟩ := foldl_mapSet_sum
      (fun i => (cf.period - 1) * 12 + i + 1) (cf.netCashFlow / 12) (List.range 12) m hnd
    refine ⟨hnd2, ?_, ?_⟩
    · intro j hj
      rcases hsub j hj with hmem | ⟨i, _, hji⟩
      · exact hkeys j hmem
      · omega
    · rw [hsum]
      simp only [List.length_range]
      push_cast
      ring
  · rw [if_neg h1]
    by_cases h2 : ¬ b = true ∧ cf.periodType = PeriodType.monthly
    · rw [if_pos h2]
      refine ⟨mapSet_nodup m _ _ hnd, ?_, mapSet_sum m _ cf.netCashFlow hnd⟩
      intro j hj
      rcases mapSet_keys_sub m _ _ j hj with hmem | hje
      · exact hkeys j hmem
      · subst hje
        omega
    · rw [if_neg h2]
      refine ⟨mapSet_nodup m _ _ hnd, ?_, mapSet_sum m _ cf.netCashFlow hnd⟩
      intro j hj
      rcases mapSet_keys_sub m _ _ j hj with hmem | hje
      · exact hkeys j hmem
      · subst hje
        exact hp

theorem foldl_groupStep_props (b : Bool) : ∀ (cfs : List CashFlow) (m : List (ℕ × ℚ)),
    (m.map Prod.fst).Nodup → (∀ j ∈ m.map Prod.fst, 1 ≤ j) →
    (∀ cf ∈ cfs, 1 ≤ cf.period) →
    ((cfs.foldl (groupStep b) m).map Prod.fst).Nodup ∧
    (∀ j ∈ (cfs.foldl (groupStep b) m).map Prod.fst, 1 ≤ j) ∧
    ((cfs.foldl (groupStep b) m).map Prod.snd).sum
      = (m.map Prod.snd).sum + (cfs.map CashFlow.netCashFlow).sum := by
  intro cfs
  induction cfs with
  | nil =>
    intro m hnd hkeys _
    refine ⟨hnd, hkeys, ?_⟩
    simp
  | cons cf t ih =>
    intro m hnd hkeys hper
    rw [List.foldl_cons]
    obtain ⟨gnd, gkeys, gsum⟩ := groupStep_props b m cf hnd hkeys
      (hper cf (List.mem_cons_self cf t))
    obtain ⟨ind, ikeys, isum⟩ := ih (groupStep b m cf) gnd gkeys
      (fun x hx => hper x (List.mem_cons_of_mem cf hx))
    refine ⟨ind, ikeys, ?_⟩
    rw [isum, gsum]
    simp only [List.map_cons, List.sum_cons]
    ring

theorem sum_map_ite_not_mem (k : ℕ) (v : ℚ) (g : ℕ → ℚ) :
    ∀ (t : List ℕ), k ∉ t →
    (t.map (fun i => if k = i then v else g i)).sum = (t.map g).sum := by
  intro t
  induction t with
  | nil => intro _; rfl
  | cons a t' ih =>
    intro h
    rw [List.mem_cons] at h
    push_neg at h
    simp only [List.map_cons, List.sum_cons]
    rw [if_neg h.1, ih h.2]

theorem sum_map_ite_mem (k : ℕ) (v : ℚ) (g : ℕ → ℚ) (hgk : g k = 0) :
    ∀ (l : List ℕ), k ∈ l → l.Nodup →
    (l.map (fun i => if k = i then v else g i)).sum = v + (l.map g).sum := by
  intro l
  induction l with
  | nil => intro h _; exact absurd h (List.not_mem_nil k)
  | cons a t ih =>
    intro hmem hnd
    rw [List.nodup_cons] at hnd
    simp only [List.map_cons, List.sum_cons]
    by_cases hak : k = a
    · subst hak
      rw [if_pos rfl, sum_map_ite_not_mem k v g t hnd.1, hgk]
      ring
    · have hkt : k ∈ t := by
        rcases List.mem_cons.mp hmem with h1 | h2
        · exact absurd h1 hak
        · exact h2
      rw [if_neg hak, ih hkt hnd.2]
      ring

theorem sum_range_getD : ∀ (m : List (ℕ × ℚ)) (l : List ℕ),
    l.Nodup → (m.map Prod.fst).Nodup → (∀ j ∈ m.map Prod.fst, j ∈ l) →
    (l.map (fun i => (mapGet m i).getD 0)).sum = (m.map Prod.snd).sum := by
  intro m
  induction m with
  | nil =>
    intro l _ _ _
    simp [mapGet_nil]
  | cons p m' ih =>
    intro l hlnd hnd hsub
    obtain ⟨k, v⟩ := p
    rw [List.map_cons, List.nodup_cons] at hnd
    have hk : k ∈ l := hsub k (by simp)
    have hfun : l.map (fun i => (mapGet ((k, v) :: m') i).getD 0)
        = l.map (fun i => if k = i then v else (mapGet m' i).getD 0) := by
      apply List.map_congr_left
      intro i _
      rw [mapGet_cons]
      by_cases hik : k = i
      · rw [if_pos hik, if_pos hik]
        rfl
      · rw [if_neg hik, if_neg hik]
    rw [hfun, sum_map_ite_mem k v _ (by rw [mapGet_eq_none m' k hnd.1]; rfl) l hk hlnd,
      ih l hlnd hnd.2 (fun j hj => hsub j (by simp [hj]))]
    simp

theorem le_foldl_max : ∀ (l : List ℕ) (a j : ℕ), (j ∈ l ∨ j ≤ a) → j ≤ l.foldl max a := by
  intro l
  induction l with
  | nil =>
    intro a j h
    rcases h with h1 | h2
    · exact absurd h1 (List.not_mem_nil j)
    · exact h2
  | cons b t ih =>
    intro a j h
    rw [List.foldl_cons]
    apply ih
    rcases h with h1 | h2
    · rcases List.mem_cons.mp h1 with hb | ht
      · right
        subst hb
        omega
      · exact Or.inl ht
    · right
      omega

theorem sum_set_getD_add : ∀ (l : List ℚ) (n : ℕ) (v : ℚ), n < l.length →
    (l.set n (l.getD n 0 + v)).sum = l.sum + v := by
  intro l
  induction l with
  | nil =>
    intro n v h
    simp at h
  | cons a t ih =>
    intro n v h
    cases n with
    | zero =>
      simp only [List.getD_cons_zero, List.set_cons_zero, List.sum_cons]
      ring
    | succ j =>
      rw [List.getD_cons_succ, List.set_cons_succ]
      simp only [List.sum_cons]
      rw [ih j v (by simpa using h)]
      ring

/-- Claim C9: for validated inputs (non-empty cash-flow list with
positive integer periods, positive holding period), the built series
conserves money exactly over rational arithmetic: its sum is
-initialInvestment.total plus the sum of all netCashFlow values plus
saleProceeds.netProceeds. Annual-to-monthly spreading contributes
netCashFlow/12 twelve times, monthly-to-annual aggregation and
zero-filling preserve sums. -/
theorem projectToCashFlowArray_sum (ii : InitialInvestment) (cfs : List CashFlow)
    (sp : SaleProceeds) (hne : cfs ≠ [])
    (hper : ∀ cf ∈ cfs, 1 ≤ cf.period) (hhp : 1 ≤ sp.holdingPeriod) :
    (projectToCashFlowArray ii cfs sp).sum
      = -ii.total + (cfs.map CashFlow.netCashFlow).sum + sp.netProceeds := by
  simp only [projectToCashFlowArray]
  set B := cfs.any (fun cf => cf.periodType = PeriodType.monthly) with hB
  set S := cfs.mergeSort (fun a b => a.period ≤ b.period) with hS
  set G := S.foldl (groupStep B) [] with hG
  set MAXP := (G.map Prod.fst).foldl max 0 with hMAXP
  set MAT := (List.range' 1 MAXP).map (fun i => (mapGet G i).getD 0) with hMAT
  have hsorted : ∀ cf ∈ S, 1 ≤ cf.period := fun cf hcf =>
    hper cf (List.mem_mergeSort.mp (hS ▸ hcf))
  obtain ⟨gnd, gkeys, gsum⟩ := foldl_groupStep_props B S [] (by simp) (by simp) hsorted
  have hsum_sorted : (S.map CashFlow.netCashFlow).sum = (cfs.map CashFlow.netCashFlow).sum := by
    rw [hS]
    exact ((List.mergeSort_perm cfs _).map CashFlow.netCashFlow).sum_eq
  have hmat : MAT.sum = (G.map Prod.snd).sum := by
    rw [hMAT]
    apply sum_range_getD G (List.range' 1 MAXP) (List.nodup_range' 1 MAXP) gnd
    intro j hj
    rw [List.mem_range'_1]
    refine ⟨gkeys j hj, ?_⟩
    have := le_foldl_max (G.map Prod.fst) 0 j (Or.inl hj)
    omega
  set HP := (if sp.holdingPeriodType = HoldingPeriodType.months ∧ ¬ B = true
      then (sp.holdingPeriod + 11) / 12
      else if sp.holdingPeriodType = HoldingPeriodType.years ∧ B = true
      then sp.holdingPeriod * 12
      else sp.holdingPeriod) with hHP
  set R1 : List ℚ := [-ii.total] ++ MAT with hR1
  set R2 : List ℚ := R1 ++ List.replicate (HP + 1 - R1.length) 0 with hR2
  have hlen : HP < R2.length := by
    rw [hR2, List.length_append, List.length_replicate]
    omega
  rw [sum_set_getD_add R2 HP sp.netProceeds hlen]
  rw [hR2, List.sum_append, List.sum_replicate, hR1, List.sum_append]
  rw [hmat] at *
  have : (G.map Prod.snd).sum = (cfs.map CashFlow.netCashFlow).sum := by
    rw [gsum, hsum_sorted]
    simp
  rw [hmat, this]
  simp

/-- Witness for the sum theorem on a mixed monthly/annual schedule:
an annual entry spread over 12 months plus a monthly entry, with sale
after 2 years, sums to -1200 + (1200 + 50) + 500 exactly. -/
theorem projectToCashFlowArray_sum_witness :
    (projectToCashFlowArray ⟨1200⟩
      [⟨1, PeriodType.annual, 1200⟩, ⟨13, PeriodType.monthly, 50⟩]
      ⟨500, 2, HoldingPeriodType.years⟩).sum
      = -1200 + (([⟨1, PeriodType.annual, 1200⟩,
          ⟨13, PeriodType.monthly, (50:ℚ)⟩] : List CashFlow).map CashFlow.netCashFlow).sum
        + 500 := by
  exact projectToCashFlowArray_sum ⟨1200⟩
    [⟨1, PeriodType.annual, 1200⟩, ⟨13, PeriodType.monthly, 50⟩]
    ⟨500, 2, HoldingPeriodType.years⟩ (by simp)
    (by intro cf hcf; fin_cases hcf <;> norm_num) (by norm_num)
